import Mathlib

/-!
Shallow embedding of `pkg/cmd/effective/effective.go` from jenkins-x/jx-pipeline.

The file embeds the orchestration logic of the `jx pipeline effective` command:
discovery of `.lighthouse/<name>/triggers.yaml` files, resolution of each job's
pipeline through an injected resolver, interactive/flag-driven selection, and
the presentation layer (temporary-file naming, editor argument construction,
line-number computation).  External collaborators (the `inrepo.UsesResolver`,
the filesystem, the interactive picker, Go's `ioutil.TempFile`) are passed in
as explicit function parameters or modelled from their documented behaviour,
as noted on each definition.
-/

/-- Opaque model of a resolved `tektonv1beta1.PipelineRun` document.  The
command never inspects the document; it only stores, serializes and displays
it, so an abstract identifier is enough. -/
structure PipelineRun where
  doc : Nat
deriving DecidableEq

/-- Model of a lighthouse `job.Base` presubmit/postsubmit job spec, restricted
to the fields `effective.go` reads or writes: `Name`, `SourcePath`, `Agent`
and the `PipelineRunSpec` pointer (whose contents are never inspected, only
compared against nil, hence `Option Nat`). -/
structure JobBase where
  Name : String
  SourcePath : String
  Agent : String
  PipelineRunSpec : Option Nat
deriving DecidableEq

/-- Model of `triggerconfig.Config`: the ordered presubmit and postsubmit job
lists parsed from a `triggers.yaml` file. -/
structure TriggerConfigSpec where
  Presubmits : List JobBase
  Postsubmits : List JobBase
deriving DecidableEq

/-- The `Trigger` record of `effective.go` (lines 74-79): the triggers-file
path, the parsed (and agent-fixed) config, the ordered qualified job names and
the map from qualified name to resolved pipeline (modelled as an association
list built in insertion order, with unique keys). -/
structure Trigger where
  Path : String
  Presubmits : List JobBase
  Postsubmits : List JobBase
  Names : List String
  Pipelines : List (String × PipelineRun)
deriving DecidableEq

/-- Modelled from Go's `filepath.Join` on Unix: joins two path segments with
the path separator (path cleaning is irrelevant to every property proved
here). -/
def joinPath (a b : String) : String := a ++ "/" ++ b

/-- Modelled from `errors.Wrapf` of github.com/pkg/errors: the wrapping
message followed by a colon, a space and the wrapped error's message. -/
def wrapErr (msg e : String) : String := msg ++ ": " ++ e

/-- Modelled from the lighthouse constant `job.TektonPipelineAgent`; only its
identity matters to the proofs, never its exact text. -/
def TektonPipelineAgent : String := "tekton-pipeline"

/-- The agent fix-up of `loadTriggerPipelines` (lines 221-223 and 237-239 of
`effective.go`): a job with no agent but an inline `PipelineRunSpec` gets the
Tekton pipeline agent. -/
def fixAgent (r : JobBase) : JobBase :=
  if r.Agent = "" ∧ r.PipelineRunSpec ≠ none then { r with Agent := TektonPipelineAgent } else r

/-- One pass of `loadTriggerPipelines` over a single job list (the presubmit
loop, lines 209-224, and the postsubmit loop, lines 225-240, are identical up
to the qualifying kind `pre`).  Returns the trace of paths handed to the
resolver (the effect of each `lighthouses.LoadEffectivePipelineRun` call)
together with either the wrapped error that aborted the load or the updated
job list, the qualified names appended in file order and the (name, pipeline)
entries recorded in the trigger's map. -/
def loadJobs (resolve : String → Except String PipelineRun) (dir pre : String) :
    List JobBase →
      List String × Except String (List JobBase × List String × List (String × PipelineRun))
  | [] => ([], Except.ok ([], [], []))
  | r :: rest =>
    if r.SourcePath = "" then
      let out := loadJobs resolve dir pre rest
      (out.1, out.2.map fun x => (fixAgent r :: x.1, x.2.1, x.2.2))
    else
      let path := joinPath dir r.SourcePath
      match resolve path with
      | Except.error e => ([path], Except.error (wrapErr ("failed to load " ++ path) e))
      | Except.ok pr =>
        let name := pre ++ "/" ++ r.Name
        let out := loadJobs resolve dir pre rest
        (path :: out.1,
          out.2.map fun x => (fixAgent r :: x.1, name :: x.2.1, (name, pr) :: x.2.2))

/-- `loadTriggerPipelines` (lines 207-242): process the presubmits, then the
postsubmits, aborting on the first resolution failure; on success assemble the
`Trigger` record.  The first component is the resolver call trace. -/
def loadTriggerPipelines (resolve : String → Except String PipelineRun) (path dir : String)
    (cfg : TriggerConfigSpec) : List String × Except String Trigger :=
  match loadJobs resolve dir "presubmit" cfg.Presubmits with
  | (calls1, Except.error e) => (calls1, Except.error e)
  | (calls1, Except.ok (pres, preNames, prePipes)) =>
    match loadJobs resolve dir "postsubmit" cfg.Postsubmits with
    | (calls2, Except.error e) => (calls1 ++ calls2, Except.error e)
    | (calls2, Except.ok (posts, postNames, postPipes)) =>
      (calls1 ++ calls2,
        Except.ok { Path := path, Presubmits := pres, Postsubmits := posts,
                    Names := preNames ++ postNames, Pipelines := prePipes ++ postPipes })

theorem loadJobs_ok (resolve : String → Except String PipelineRun) (dir pre : String)
    (jobs : List JobBase) (js : List JobBase) (ns : List String)
    (ps : List (String × PipelineRun))
    (h : (loadJobs resolve dir pre jobs).2 = Except.ok (js, ns, ps)) :
    js = jobs.map fixAgent ∧
    ns = (jobs.filter (fun r => r.SourcePath != "")).map (fun r => pre ++ "/" ++ r.Name) ∧
    ps.map Prod.fst = ns := by
  induction jobs generalizing js ns ps with
  | nil =>
    simp only [loadJobs, Except.ok.injEq, Prod.mk.injEq] at h
    obtain ⟨h1, h2, h3⟩ := h
    subst h1; subst h2; subst h3
    simp
  | cons r rest ih =>
    by_cases hsp : r.SourcePath = ""
    · simp only [loadJobs, hsp, if_true] at h
      cases hrest : (loadJobs resolve dir pre rest).2 with
      | error e => rw [hrest] at h; simp [Except.map] at h
      | ok x =>
        obtain ⟨js0, ns0, ps0⟩ := x
        rw [hrest] at h
        simp only [Except.map, Except.ok.injEq, Prod.mk.injEq] at h
        obtain ⟨h1, h2, h3⟩ := h
        subst h1; subst h2; subst h3
        obtain ⟨e1, e2, e3⟩ := ih js0 ns0 ps0 hrest
        constructor
        · simp [e1]
        · constructor
          · simp [List.filter_cons, hsp, e2]
          · simp [e3, e2]
    · simp only [loadJobs, hsp, if_true, if_false] at h
      cases hres : resolve (joinPath dir r.SourcePath) with
      | error e => rw [hres] at h; simp at h
      | ok pr =>
        rw [hres] at h
        cases hrest : (loadJobs resolve dir pre rest).2 with
        | error e => rw [hrest] at h; simp [Except.map] at h
        | ok x =>
          obtain ⟨js0, ns0, ps0⟩ := x
          rw [hrest] at h
          simp only [Except.map, Except.ok.injEq, Prod.mk.injEq] at h
          obtain ⟨h1, h2, h3⟩ := h
          subst h1; subst h2; subst h3
          obtain ⟨e1, e2, e3⟩ := ih js0 ns0 ps0 hrest
          refine ⟨by simp [e1], ?_, ?_⟩
          · simp [List.filter_cons, hsp, e2]
          · simp [e3, e2]

theorem loadJobs_calls (resolve : String → Except String PipelineRun) (dir pre : String)
    (jobs : List JobBase) :
    ∀ p ∈ (loadJobs resolve dir pre jobs).1,
      ∃ r ∈ jobs, r.SourcePath ≠ "" ∧ p = joinPath dir r.SourcePath := by
  induction jobs with
  | nil => simp [loadJobs]
  | cons r rest ih =>
    intro p hp
    by_cases hsp : r.SourcePath = ""
    · simp only [loadJobs, hsp, if_true] at hp
      obtain ⟨r2, hr2, hne, hpe⟩ := ih p hp
      exact ⟨r2, List.mem_cons_of_mem _ hr2, hne, hpe⟩
    · simp only [loadJobs, hsp, if_true, if_false] at hp
      cases hres : resolve (joinPath dir r.SourcePath) with
      | error e =>
        rw [hres] at hp
        simp only [List.mem_singleton] at hp
        exact ⟨r, List.mem_cons_self _ _, hsp, hp⟩
      | ok pr =>
        rw [hres] at hp
        simp only [List.mem_cons] at hp
        cases hp with
        | inl hpe => exact ⟨r, List.mem_cons_self _ _, hsp, hpe⟩
        | inr hp2 =>
          obtain ⟨r2, hr2, hne, hpe⟩ := ih p hp2
          exact ⟨r2, List.mem_cons_of_mem _ hr2, hne, hpe⟩

theorem string_append_left_cancel {a s t : String} (h : a ++ s = a ++ t) : s = t := by
  have h2 := congrArg String.data h
  simp only [String.data_append] at h2
  exact congrArg String.mk (List.append_cancel_left h2)

theorem qualifiedPre_ne_qualifiedPost (s t : String) :
    "presubmit/" ++ s ≠ "postsubmit/" ++ t := by
  intro h
  have h2 := congrArg (fun x => x.data.take 2) h
  simp only [String.data_append, List.take_append_eq_append_take] at h2
  have e1 : "presubmit/".data.take 2 = ['p', 'r'] := by decide
  have e2 : "postsubmit/".data.take 2 = ['p', 'o'] := by decide
  have e3 : 2 - "presubmit/".data.length = 0 := by decide
  have e4 : 2 - "postsubmit/".data.length = 0 := by decide
  rw [e1, e2, e3, e4] at h2
  simp at h2

theorem lookup_eq_none_of_not_mem_keys {ps : List (String × PipelineRun)} {k : String}
    (h : k ∉ ps.map Prod.fst) : ps.lookup k = none := by
  induction ps with
  | nil => rfl
  | cons p rest ih =>
    obtain ⟨k1, v1⟩ := p
    simp only [List.map_cons, List.mem_cons] at h
    push_neg at h
    have hbe : (k == k1) = false := by simpa [beq_iff_eq] using h.1
    simp only [List.lookup, hbe]
    exact ih h.2

theorem loadTriggerPipelines_ok (resolve : String → Except String PipelineRun)
    (path dir : String) (cfg : TriggerConfigSpec) (trig : Trigger)
    (hok : (loadTriggerPipelines resolve path dir cfg).2 = Except.ok trig) :
    trig.Path = path ∧
    trig.Presubmits = cfg.Presubmits.map fixAgent ∧
    trig.Postsubmits = cfg.Postsubmits.map fixAgent ∧
    trig.Names =
      (cfg.Presubmits.filter (fun r => r.SourcePath != "")).map
          (fun r => "presubmit/" ++ r.Name) ++
        (cfg.Postsubmits.filter (fun r => r.SourcePath != "")).map
          (fun r => "postsubmit/" ++ r.Name) ∧
    trig.Pipelines.map Prod.fst = trig.Names := by
  unfold loadTriggerPipelines at hok
  rcases h1 : loadJobs resolve dir "presubmit" cfg.Presubmits with ⟨calls1, res1⟩
  rw [h1] at hok
  cases res1 with
  | error e => simp at hok
  | ok x1 =>
    obtain ⟨pres, preNames, prePipes⟩ := x1
    rcases h2 : loadJobs resolve dir "postsubmit" cfg.Postsubmits with ⟨calls2, res2⟩
    rw [h2] at hok
    cases res2 with
    | error e => simp at hok
    | ok x2 =>
      obtain ⟨posts, postNames, postPipes⟩ := x2
      simp only [Except.ok.injEq] at hok
      obtain ⟨ePre1, ePre2, ePre3⟩ :=
        loadJobs_ok resolve dir "presubmit" cfg.Presubmits pres preNames prePipes
          (by rw [h1])
      obtain ⟨ePost1, ePost2, ePost3⟩ :=
        loadJobs_ok resolve dir "postsubmit" cfg.Postsubmits posts postNames postPipes
          (by rw [h2])
      subst hok
      have hlit1 : ("presubmit" : String) ++ "/" = "presubmit/" := rfl
      have hlit2 : ("postsubmit" : String) ++ "/" = "postsubmit/" := rfl
      refine ⟨rfl, by simpa using ePre1, by simpa using ePost1, ?_, ?_⟩
      · simp only [ePre2, ePost2, hlit1, hlit2]
      · simp only [List.map_append, ePre3, ePost3, ePre2, ePost2, hlit1, hlit2]

theorem loadTriggerPipelines_calls (resolve : String → Except String PipelineRun)
    (path dir : String) (cfg : TriggerConfigSpec) :
    ∀ p ∈ (loadTriggerPipelines resolve path dir cfg).1,
      ∃ r2, (r2 ∈ cfg.Presubmits ∨ r2 ∈ cfg.Postsubmits) ∧
        r2.SourcePath ≠ "" ∧ p = joinPath dir r2.SourcePath := by
  intro p hp
  have hc1 : ∀ q ∈ (loadJobs resolve dir "presubmit" cfg.Presubmits).1,
      ∃ r2, (r2 ∈ cfg.Presubmits ∨ r2 ∈ cfg.Postsubmits) ∧
        r2.SourcePath ≠ "" ∧ q = joinPath dir r2.SourcePath := by
    intro q hq
    obtain ⟨r, hr, hne, he⟩ := loadJobs_calls resolve dir "presubmit" cfg.Presubmits q hq
    exact ⟨r, Or.inl hr, hne, he⟩
  have hc2 : ∀ q ∈ (loadJobs resolve dir "postsubmit" cfg.Postsubmits).1,
      ∃ r2, (r2 ∈ cfg.Presubmits ∨ r2 ∈ cfg.Postsubmits) ∧
        r2.SourcePath ≠ "" ∧ q = joinPath dir r2.SourcePath := by
    intro q hq
    obtain ⟨r, hr, hne, he⟩ := loadJobs_calls resolve dir "postsubmit" cfg.Postsubmits q hq
    exact ⟨r, Or.inr hr, hne, he⟩
  unfold loadTriggerPipelines at hp
  rcases h1 : loadJobs resolve dir "presubmit" cfg.Presubmits with ⟨calls1, res1⟩
  rw [h1] at hp hc1
  cases res1 with
  | error e => exact hc1 p (by simpa using hp)
  | ok x1 =>
    obtain ⟨pres, preNames, prePipes⟩ := x1
    rcases h2 : loadJobs resolve dir "postsubmit" cfg.Postsubmits with ⟨calls2, res2⟩
    rw [h2] at hp hc2
    cases res2 with
    | error e =>
      simp only [List.mem_append] at hp
      cases hp with
      | inl hq => exact hc1 p hq
      | inr hq => exact hc2 p hq
    | ok x2 =>
      obtain ⟨posts, postNames, postPipes⟩ := x2
      simp only [List.mem_append] at hp
      cases hp with
      | inl hq => exact hc1 p hq
      | inr hq => exact hc2 p hq

/-- C1: for every presubmit or postsubmit job spec whose source-path is empty,
loading the trigger performs no resolver call for that entry — every path in
the resolver call trace belongs to some job with a non-empty source-path — and
(given the data-model invariant that job names are unique within their list)
the job's qualified name appears neither in the trigger's ordered job-name
list nor in its pipeline mapping. -/
theorem c1_empty_source_path_skipped
    (resolve : String → Except String PipelineRun) (path dir : String)
    (cfg : TriggerConfigSpec) (trig : Trigger)
    (hok : (loadTriggerPipelines resolve path dir cfg).2 = Except.ok trig)
    (hnodupPre : (cfg.Presubmits.map JobBase.Name).Nodup)
    (hnodupPost : (cfg.Postsubmits.map JobBase.Name).Nodup) :
    (∀ p ∈ (loadTriggerPipelines resolve path dir cfg).1,
        ∃ r2, (r2 ∈ cfg.Presubmits ∨ r2 ∈ cfg.Postsubmits) ∧
          r2.SourcePath ≠ "" ∧ p = joinPath dir r2.SourcePath) ∧
    (∀ r ∈ cfg.Presubmits, r.SourcePath = "" →
        ("presubmit/" ++ r.Name) ∉ trig.Names ∧
        trig.Pipelines.lookup ("presubmit/" ++ r.Name) = none) ∧
    (∀ r ∈ cfg.Postsubmits, r.SourcePath = "" →
        ("postsubmit/" ++ r.Name) ∉ trig.Names ∧
        trig.Pipelines.lookup ("postsubmit/" ++ r.Name) = none) := by
  obtain ⟨-, -, -, hnames, hkeys⟩ := loadTriggerPipelines_ok resolve path dir cfg trig hok
  refine ⟨loadTriggerPipelines_calls resolve path dir cfg, ?_, ?_⟩
  · intro r hr hsp
    have hnot : ("presubmit/" ++ r.Name) ∉ trig.Names := by
      rw [hnames]
      intro hmem
      rcases List.mem_append.mp hmem with hmem1 | hmem2
      · obtain ⟨r2, hr2, heq⟩ := List.mem_map.mp hmem1
        obtain ⟨hr2mem, hr2sp⟩ := List.mem_filter.mp hr2
        have hname : r2.Name = r.Name := string_append_left_cancel heq
        have hrr : r2 = r := List.inj_on_of_nodup_map hnodupPre hr2mem hr hname
        subst hrr
        rw [hsp] at hr2sp
        simp at hr2sp
      · obtain ⟨r2, hr2, heq⟩ := List.mem_map.mp hmem2
        exact qualifiedPre_ne_qualifiedPost r.Name r2.Name heq.symm
    refine ⟨hnot, lookup_eq_none_of_not_mem_keys ?_⟩
    rw [hkeys]
    exact hnot
  · intro r hr hsp
    have hnot : ("postsubmit/" ++ r.Name) ∉ trig.Names := by
      rw [hnames]
      intro hmem
      rcases List.mem_append.mp hmem with hmem1 | hmem2
      · obtain ⟨r2, hr2, heq⟩ := List.mem_map.mp hmem1
        exact qualifiedPre_ne_qualifiedPost r2.Name r.Name heq
      · obtain ⟨r2, hr2, heq⟩ := List.mem_map.mp hmem2
        obtain ⟨hr2mem, hr2sp⟩ := List.mem_filter.mp hr2
        have hname : r2.Name = r.Name := string_append_left_cancel heq
        have hrr : r2 = r := List.inj_on_of_nodup_map hnodupPost hr2mem hr hname
        subst hrr
        rw [hsp] at hr2sp
        simp at hr2sp
    refine ⟨hnot, lookup_eq_none_of_not_mem_keys ?_⟩
    rw [hkeys]
    exact hnot

/-- C2: on a successful load, the trigger's job-name list is exactly the
presubmit jobs with a source-path, qualified as `presubmit/<name>`, in file
order, followed by the postsubmit jobs with a source-path, qualified as
`postsubmit/<name>`, in file order; consequently every entry has one of the
two qualified forms. -/
theorem c2_qualified_name_order
    (resolve : String → Except String PipelineRun) (path dir : String)
    (cfg : TriggerConfigSpec) (trig : Trigger)
    (hok : (loadTriggerPipelines resolve path dir cfg).2 = Except.ok trig) :
    trig.Names =
      (cfg.Presubmits.filter (fun r => r.SourcePath != "")).map
          (fun r => "presubmit/" ++ r.Name) ++
        (cfg.Postsubmits.filter (fun r => r.SourcePath != "")).map
          (fun r => "postsubmit/" ++ r.Name) ∧
    ∀ n ∈ trig.Names, (∃ s, n = "presubmit/" ++ s) ∨ ∃ s, n = "postsubmit/" ++ s := by
  obtain ⟨-, -, -, hnames, -⟩ := loadTriggerPipelines_ok resolve path dir cfg trig hok
  refine ⟨hnames, ?_⟩
  intro n hn
  rw [hnames] at hn
  rcases List.mem_append.mp hn with h | h
  · obtain ⟨r, -, heq⟩ := List.mem_map.mp h
    exact Or.inl ⟨r.Name, heq.symm⟩
  · obtain ⟨r, -, heq⟩ := List.mem_map.mp h
    exact Or.inr ⟨r.Name, heq.symm⟩

/-- C9: on a successful load, every job spec in the trigger's config has had
the agent fix-up applied — a job with an empty agent and a non-nil inline
pipeline spec gets the Tekton pipeline agent constant, regardless of its
source-path, and every other job is left unchanged. -/
theorem c9_agent_defaulting
    (resolve : String → Except String PipelineRun) (path dir : String)
    (cfg : TriggerConfigSpec) (trig : Trigger)
    (hok : (loadTriggerPipelines resolve path dir cfg).2 = Except.ok trig) :
    trig.Presubmits = cfg.Presubmits.map fixAgent ∧
    trig.Postsubmits = cfg.Postsubmits.map fixAgent ∧
    (∀ r : JobBase, r.Agent = "" ∧ r.PipelineRunSpec ≠ none →
        fixAgent r = { r with Agent := TektonPipelineAgent }) ∧
    ∀ r : JobBase, ¬(r.Agent = "" ∧ r.PipelineRunSpec ≠ none) → fixAgent r = r := by
  obtain ⟨-, h1, h2, -, -⟩ := loadTriggerPipelines_ok resolve path dir cfg trig hok
  refine ⟨h1, h2, ?_, ?_⟩
  · intro r hc
    unfold fixAgent
    rw [if_pos hc]
  · intro r hc
    unfold fixAgent
    rw [if_neg hc]

/-- Example resolver for the witnesses: resolves every path to the same
document. -/
def egResolve : String → Except String PipelineRun := fun _ => Except.ok ⟨7⟩

/-- Example presubmit job with a source-path and no inline pipeline spec. -/
def egJobA : JobBase :=
  { Name := "pr", SourcePath := "jenkins-x.yaml", Agent := "", PipelineRunSpec := none }

/-- Example presubmit job with an empty source-path and an inline pipeline
spec. -/
def egJobB : JobBase :=
  { Name := "lint", SourcePath := "", Agent := "", PipelineRunSpec := some 3 }

/-- Example postsubmit job with a source-path and an agent already set. -/
def egJobC : JobBase :=
  { Name := "release", SourcePath := "release.yaml", Agent := "tekton", PipelineRunSpec := none }

/-- Example trigger config for the witnesses. -/
def egCfg : TriggerConfigSpec := { Presubmits := [egJobA, egJobB], Postsubmits := [egJobC] }

/-- The trigger produced by loading `egCfg` with `egResolve`. -/
def egTrig : Trigger :=
  { Path := "p"
  , Presubmits := [egJobA, { egJobB with Agent := TektonPipelineAgent }]
  , Postsubmits := [egJobC]
  , Names := ["presubmit/pr", "postsubmit/release"]
  , Pipelines := [("presubmit/pr", ⟨7⟩), ("postsubmit/release", ⟨7⟩)] }

theorem c1_empty_source_path_skipped_witness :
    ("presubmit/" ++ egJobB.Name) ∉ egTrig.Names ∧
      egTrig.Pipelines.lookup ("presubmit/" ++ egJobB.Name) = none :=
  (c1_empty_source_path_skipped egResolve "p" "d" egCfg egTrig rfl (by decide)
      (by decide)).2.1 egJobB (by decide) (by decide)

theorem c2_qualified_name_order_witness :
    egTrig.Names = ["presubmit/pr", "postsubmit/release"] := by
  have h := c2_qualified_name_order egResolve "p" "d" egCfg egTrig rfl
  rw [h.1]
  decide

theorem c9_agent_defaulting_witness :
    egTrig.Presubmits = [egJobA, { egJobB with Agent := TektonPipelineAgent }] ∧
      fixAgent egJobB = { egJobB with Agent := TektonPipelineAgent } ∧
      fixAgent egJobA = egJobA := by
  have h := c9_agent_defaulting egResolve "p" "d" egCfg egTrig rfl
  refine ⟨by rw [h.1]; decide, h.2.2.1 egJobB (by decide), h.2.2.2 egJobA (by decide)⟩

/-- Modelled from Go `strings.TrimSpace` as used at line 373 of
`effective.go`: removes leading and trailing whitespace characters. -/
def trimSpace (s : String) : String :=
  ⟨((s.data.dropWhile Char.isWhitespace).reverse.dropWhile Char.isWhitespace).reverse⟩

/-- Helper for `splitLines`: accumulates the current line (reversed) while
scanning the character list. -/
def splitLinesAux : List Char → List Char → List String
  | [], acc => [⟨acc.reverse⟩]
  | c :: cs, acc =>
    if c = '\n' then ⟨acc.reverse⟩ :: splitLinesAux cs []
    else splitLinesAux cs (c :: acc)

/-- Modelled from Go `strings.Split(string(data), "\n")` at line 371 of
`effective.go`: splits on every newline character. -/
def splitLines (s : String) : List String := splitLinesAux s.data []

/-- Loop body of `findFirstStepLine` (lines 372-376): walk the lines keeping
the 0-indexed position, returning `strconv.Itoa(i + 2)` at the first line
whose trimmed content is `steps:`, and the empty string if none is found. -/
def findStepLineAux : List String → Nat → String
  | [], _ => ""
  | l :: ls, i => if trimSpace l = "steps:" then toString (i + 2) else findStepLineAux ls (i + 1)

/-- `findFirstStepLine` (lines 366-379) applied to the saved file's contents
(the file read itself is I/O and is supplied here as the `content`
argument). -/
def findFirstStepLine (content : String) : String :=
  findStepLineAux (splitLines content) 0

/-- The line-number computation of `openInEditor` (lines 331-342): an
explicitly supplied `--line` value is used directly; otherwise the saved
file is scanned and a fixed fallback of `161` is used when no `steps:` line
exists. -/
def computeLine (optLine content : String) : String :=
  if optLine = "" then
    let l := findFirstStepLine content
    if l = "" then "161" else l
  else optLine

/-- The editor argument construction of `openInEditor` (lines 330 and
343-350): `idea` gets `--line <line> <path>`, `code` gets `-g <path>:<line>`,
anything else just `<path>`. -/
def editorLaunchArgs (editor path optLine content : String) : List String :=
  let line := computeLine optLine content
  if line ≠ "" then
    match editor with
    | "idea" => ["--line", line, path]
    | "code" => ["-g", path ++ ":" ++ line]
    | _ => [path]
  else [path]

theorem toDigitsCore_ne_nil (b : Nat) (fuel : Nat) :
    ∀ (n : Nat) (ds : List Char), ds ≠ [] → Nat.toDigitsCore b fuel n ds ≠ [] := by
  induction fuel with
  | zero => intro n ds h; simpa [Nat.toDigitsCore] using h
  | succ f ih =>
    intro n ds h
    unfold Nat.toDigitsCore
    by_cases hz : n / b = 0
    · simp [hz]
    · simp only [hz, if_false]
      exact ih _ _ (by simp)

theorem toDigits_ne_nil (b n : Nat) : Nat.toDigits b n ≠ [] := by
  unfold Nat.toDigits
  unfold Nat.toDigitsCore
  by_cases hz : n / b = 0
  · simp [hz]
  · simp only [hz, if_false]
    exact toDigitsCore_ne_nil b n _ _ (by simp)

theorem toString_nat_ne_empty (n : Nat) : toString n ≠ "" := by
  show Nat.repr n ≠ ""
  unfold Nat.repr
  intro h
  apply toDigits_ne_nil 10 n
  have h2 := congrArg String.data h
  simpa [List.asString] using h2

theorem findStepLineAux_eq (ls : List String) (n : Nat) :
    findStepLineAux ls n =
      match List.findIdx? (fun l => trimSpace l == "steps:") ls n with
      | some i => toString (i + 2)
      | none => "" := by
  induction ls generalizing n with
  | nil => rfl
  | cons l ls ih =>
    by_cases hc : trimSpace l = "steps:"
    · simp [findStepLineAux, hc, List.findIdx?_cons]
    · simp [findStepLineAux, hc, List.findIdx?_cons, ih]

theorem computeLine_ne_empty (optLine content : String) :
    computeLine optLine content ≠ "" := by
  unfold computeLine
  by_cases ho : optLine = ""
  · simp only [ho, if_true]
    by_cases hl : findFirstStepLine content = ""
    · simp [hl]
    · simp [hl]
  · simp [ho]

/-- C3: with no explicit line value, the editor target line is computed from
the saved file's contents: `i + 2` (as a decimal string) for the 0-indexed
position `i` of the first line whose trimmed content is exactly `steps:`, and
the fixed fallback `161` when no such line exists; with an explicit line
value, that value is used directly and the result does not depend on the file
contents at all. -/
theorem c3_editor_line_from_contents (optLine content : String) :
    (optLine = "" →
      computeLine optLine content =
        match List.findIdx? (fun l => trimSpace l == "steps:") (splitLines content) with
        | some i => toString (i + 2)
        | none => "161") ∧
    (optLine ≠ "" → ∀ c2 : String, computeLine optLine c2 = optLine) := by
  constructor
  · intro ho
    subst ho
    unfold computeLine
    rw [if_pos rfl]
    unfold findFirstStepLine
    rw [findStepLineAux_eq]
    cases hidx : List.findIdx? (fun l => trimSpace l == "steps:") (splitLines content) 0 with
    | none => simp
    | some i => simp [toString_nat_ne_empty (i + 2)]
  · intro ho c2
    unfold computeLine
    rw [if_neg ho]

/-- Example file contents whose 0-indexed line 9 is exactly `steps:`. -/
def egContent : String := "a:\nb:\nc:\nd:\ne:\nf:\ng:\nh:\ni:\nsteps:\n  - run"

/-- Example file contents with no `steps:` line. -/
def egContentNoSteps : String := "a:\nb:\n  image: x"

theorem c3_editor_line_from_contents_witness :
    computeLine "" egContent = "11" ∧
      computeLine "" egContentNoSteps = "161" ∧
      computeLine "42" egContent = "42" := by
  refine ⟨?_, ?_, ?_⟩
  · have h := (c3_editor_line_from_contents "" egContent).1 rfl
    rw [h]
    decide
  · have h := (c3_editor_line_from_contents "" egContentNoSteps).1 rfl
    rw [h]
    decide
  · exact (c3_editor_line_from_contents "42" egContent).2 (by decide) egContent

/-- C8: for every editor launch, the editor named `idea` is invoked with
arguments `--line <line> <path>`, the editor named `code` with the single
`-g <path>:<line>` pair, and any other editor name with just the file path
and no line argument, where `<line>` is the computed or supplied line. -/
theorem c8_editor_argument_conventions (editor path optLine content : String) :
    editorLaunchArgs editor path optLine content =
      if editor = "idea" then ["--line", computeLine optLine content, path]
      else if editor = "code" then ["-g", path ++ ":" ++ computeLine optLine content]
      else [path] := by
  unfold editorLaunchArgs
  rw [if_pos (computeLine_ne_empty optLine content)]
  by_cases h1 : editor = "idea"
  · subst h1
    simp
  · by_cases h2 : editor = "code"
    · subst h2
      simp
    · rw [if_neg h1, if_neg h2]
      split
      · exact absurd rfl h1
      · exact absurd rfl h2
      · rfl

/-- Modelled from Go `strings.HasPrefix(name, ".")` at line 174 of
`effective.go`: whether the first character is a dot. -/
def startsWithDot (s : String) : Bool :=
  match s.data with
  | [] => false
  | c :: _ => c = '.'

/-- Directory entry as returned by `ioutil.ReadDir`: the entry name and
whether it is a directory. -/
structure DirEntry where
  name : String
  isDir : Bool
deriving DecidableEq

/-- The external collaborators of the command, passed in explicitly: the
filesystem operations (`ioutil.ReadDir`, `files.FileExists`,
`yamls.LoadFile` parsing a `triggers.yaml` into a config) and the pipeline
resolver (`lighthouses.LoadEffectivePipelineRun` over the injected
`UsesResolver`). -/
structure FS where
  readDir : String → Except String (List DirEntry)
  fileExists : String → Except String Bool
  loadConfig : String → Except String TriggerConfigSpec
  resolve : String → Except String PipelineRun

/-- The entry loop of `ProcessDir` (lines 172-203): skip entries that are not
directories or start with `.`; skip directories without a `triggers.yaml`;
parse the rest and load their pipelines, accumulating `Trigger` records in
order and aborting on the first error. -/
def processEntries (fs : FS) (dir : String) : List DirEntry → Except String (List Trigger)
  | [] => Except.ok []
  | e :: rest =>
    if !e.isDir || startsWithDot e.name then processEntries fs dir rest
    else
      let triggerDir := joinPath dir e.name
      let triggersFile := joinPath triggerDir "triggers.yaml"
      match fs.fileExists triggersFile with
      | Except.error err =>
        Except.error (wrapErr ("failed to check if file exists " ++ triggersFile) err)
      | Except.ok false => processEntries fs dir rest
      | Except.ok true =>
        match fs.loadConfig triggersFile with
        | Except.error err => Except.error (wrapErr ("failed to load " ++ triggersFile) err)
        | Except.ok cfg =>
          match (loadTriggerPipelines fs.resolve triggersFile triggerDir cfg).2 with
          | Except.error err =>
            Except.error (wrapErr ("failed to load pipelines for trigger: " ++ triggersFile) err)
          | Except.ok trig => (processEntries fs dir rest).map (fun ts => trig :: ts)

/-- `ProcessDir` (lines 167-205): read the directory (wrapping a read failure
with the directory name) and process its entries. -/
def ProcessDir (fs : FS) (dir : String) : Except String (List Trigger) :=
  match fs.readDir dir with
  | Except.error e => Except.error (wrapErr ("failed to read dir " ++ dir) e)
  | Except.ok entries => processEntries fs dir entries

/-- C4: a scanned entry that is not a directory, or starts with `.`, or is a
directory whose `triggers.yaml` does not exist, is skipped silently: the scan
of the remaining entries is unchanged — no `Trigger` record is created for it
and no error is raised on its account. -/
theorem c4_missing_triggers_silent_skip (fs : FS) (dir : String) (e : DirEntry)
    (rest : List DirEntry)
    (h : (e.isDir = false ∨ startsWithDot e.name = true) ∨
      fs.fileExists (joinPath (joinPath dir e.name) "triggers.yaml") = Except.ok false) :
    processEntries fs dir (e :: rest) = processEntries fs dir rest := by
  by_cases hskip : (!e.isDir || startsWithDot e.name) = true
  · conv_lhs => rw [processEntries]
    rw [if_pos hskip]
  · have hcond : ¬(e.isDir = false ∨ startsWithDot e.name = true) := by
      intro hc
      apply hskip
      rcases hc with hc | hc <;> simp [hc]
    have hex : fs.fileExists (joinPath (joinPath dir e.name) "triggers.yaml") =
        Except.ok false := h.resolve_left hcond
    conv_lhs => rw [processEntries]
    rw [if_neg hskip]
    simp only [hex]

/-- Example filesystem for the witnesses: one real trigger directory
`jenkins-x`, a dot-directory, a plain file and a directory without a
`triggers.yaml`. -/
def egFS : FS :=
  { readDir := fun _ =>
      Except.ok [⟨"jenkins-x", true⟩, ⟨".git", true⟩, ⟨"README.md", false⟩, ⟨"empty", true⟩]
  , fileExists := fun p => Except.ok (p == ".lighthouse/jenkins-x/triggers.yaml")
  , loadConfig := fun _ => Except.ok egCfg
  , resolve := egResolve }

theorem c4_missing_triggers_silent_skip_witness :
    processEntries egFS ".lighthouse" [⟨"empty", true⟩] = Except.ok [] ∧
      processEntries egFS ".lighthouse" [⟨".git", true⟩] = Except.ok [] ∧
      processEntries egFS ".lighthouse" [⟨"README.md", false⟩] = Except.ok [] := by
  refine ⟨?_, ?_, ?_⟩
  · rw [c4_missing_triggers_silent_skip egFS ".lighthouse" ⟨"empty", true⟩ []
      (Or.inr rfl)]
    rfl
  · rw [c4_missing_triggers_silent_skip egFS ".lighthouse" ⟨".git", true⟩ []
      (Or.inl (Or.inr (by decide)))]
    rfl
  · rw [c4_missing_triggers_silent_skip egFS ".lighthouse" ⟨"README.md", false⟩ []
      (Or.inl (Or.inl rfl))]
    rfl

/-- Modelled from `options.InvalidOptionf` of jx-helpers: an "invalid option"
error naming the flag, the supplied value and the formatted message (here
always the enumeration of the available names). -/
def invalidOptionf (flagName value message : String) : String :=
  "invalid option: --" ++ flagName ++ " " ++ value ++ ": " ++ message

/-- The map lookup `m[name]` of `processTriggers` (lines 246-251 and 264):
the map is built by iterating over the triggers keyed by path, so a later
trigger with the same path overwrites an earlier one. -/
def findTrigger (ts : List Trigger) (name : String) : Option Trigger :=
  ts.reverse.find? (fun t => t.Path == name)

/-- `processTriggers` (lines 244-285) up to the hand-off to
`displayPipeline`: two-stage selection of a trigger (by explicit `--trigger`
value or interactive pick) and then of a pipeline within it (by explicit
`--pipeline` value or interactive pick).  `pick` models
`Input.PickNameWithDefault(names, message, defaultValue, help)`. -/
def processTriggers (pick : List String → String → String → String → Except String String)
    (triggerName pipelineName : String) (triggers : List Trigger) :
    Except String (Trigger × String × PipelineRun) :=
  let names := triggers.map Trigger.Path
  match (if triggerName = "" then
      match pick names "pick the trigger config: " "" "select the set of triggers to process" with
      | Except.error e => Except.error (wrapErr "failed to pick trigger file" e)
      | Except.ok n => if n = "" then Except.error "no trigger file selected" else Except.ok n
    else Except.ok triggerName : Except String String) with
  | Except.error e => Except.error e
  | Except.ok name =>
    match findTrigger triggers name with
    | none =>
      Except.error (invalidOptionf "trigger" triggerName
        ("available names " ++ String.intercalate ", " names))
    | some trigger =>
      match (if pipelineName = "" then
          match pick trigger.Names "pick the pipeline: " "" "select the pipeline to view" with
          | Except.error e => Except.error (wrapErr "failed to pick trigger file" e)
          | Except.ok n => if n = "" then Except.error "no trigger file selected" else Except.ok n
        else Except.ok pipelineName : Except String String) with
      | Except.error e => Except.error e
      | Except.ok pname =>
        match trigger.Pipelines.lookup pname with
        | none =>
          Except.error (invalidOptionf "pipeline" pipelineName
            ("available names " ++ String.intercalate ", " trigger.Names))
        | some pipeline => Except.ok (trigger, pname, pipeline)

theorem findTrigger_eq_none {ts : List Trigger} {n : String}
    (h : ∀ t ∈ ts, t.Path ≠ n) : findTrigger ts n = none := by
  unfold findTrigger
  rw [List.find?_eq_none]
  intro t ht
  simp only [beq_iff_eq]
  exact h t (List.mem_reverse.mp ht)

/-- C5: an explicitly supplied trigger name that matches none of the
discovered triggers' file paths fails the run with an "invalid option" error
enumerating every discovered trigger path. -/
theorem c5_invalid_trigger_enumerates_paths
    (pick : List String → String → String → String → Except String String)
    (triggerName pipelineName : String) (triggers : List Trigger)
    (hne : triggerName ≠ "") (hnotfound : ∀ t ∈ triggers, t.Path ≠ triggerName) :
    processTriggers pick triggerName pipelineName triggers =
      Except.error (invalidOptionf "trigger" triggerName
        ("available names " ++ String.intercalate ", " (triggers.map Trigger.Path))) := by
  simp only [processTriggers, if_neg hne, findTrigger_eq_none hnotfound]

/-- C6: with no explicit name supplied, an interactive pick that returns the
empty selection fails the run with the error "no trigger file selected", and
it does so identically at both selection stages — the trigger pick and the
pipeline pick. -/
theorem c6_cancelled_pick_fails
    (pick : List String → String → String → String → Except String String)
    (triggers : List Trigger) :
    (∀ pipelineName : String,
      pick (triggers.map Trigger.Path) "pick the trigger config: " ""
          "select the set of triggers to process" = Except.ok "" →
      processTriggers pick "" pipelineName triggers =
        Except.error "no trigger file selected") ∧
    (∀ (triggerName : String) (trigger : Trigger), triggerName ≠ "" →
      findTrigger triggers triggerName = some trigger →
      pick trigger.Names "pick the pipeline: " "" "select the pipeline to view" =
          Except.ok "" →
      processTriggers pick triggerName "" triggers =
        Except.error "no trigger file selected") := by
  constructor
  · intro pipelineName hpick
    simp only [processTriggers, if_pos rfl, hpick, if_true]
  · intro triggerName trigger hne hfind hpick
    simp only [processTriggers, if_neg hne, hfind, if_pos rfl, hpick, if_true]

/-- Example picker that always returns an empty selection (the user
cancelling the interactive prompt). -/
def egPickEmpty : List String → String → String → String → Except String String :=
  fun _ _ _ _ => Except.ok ""

theorem c5_invalid_trigger_enumerates_paths_witness :
    processTriggers egPickEmpty "nope" "" [egTrig] =
      Except.error "invalid option: --trigger nope: available names p" := by
  rw [c5_invalid_trigger_enumerates_paths egPickEmpty "nope" "" [egTrig] (by decide)
    (by decide)]
  rfl

theorem c6_cancelled_pick_fails_witness :
    processTriggers egPickEmpty "" "" [egTrig] = Except.error "no trigger file selected" ∧
      processTriggers egPickEmpty "p" "" [egTrig] =
        Except.error "no trigger file selected" :=
  ⟨(c6_cancelled_pick_fails egPickEmpty [egTrig]).1 "" rfl,
    (c6_cancelled_pick_fails egPickEmpty [egTrig]).2 "p" egTrig (by decide) rfl rfl⟩

theorem stringDataEq {s t : String} (h : s.data = t.data) : s = t :=
  congrArg String.mk h

/-- The base-name computation of `displayPipeline` (lines 290-297): the final
path segment of the absolute root directory (supplied here as `rootBase`,
empty when `filepath.Abs` failed), replaced by the default `jx-pipeline` when
empty or a single character. -/
def tmpBaseName (rootBase : String) : String :=
  if rootBase = "" ∨ rootBase.length = 1 then "jx-pipeline" else rootBase

/-- The temporary-file pattern built at line 298 of `effective.go`: base name,
hyphen, the qualified job name with path separators replaced by hyphens, and
the `-*.yaml` placeholder suffix handed to `ioutil.TempFile`. -/
def tmpFilePattern (rootBase name : String) : String :=
  tmpBaseName rootBase ++ "-" ++ name.replace "/" "-" ++ "-*.yaml"

/-- Helper for `tempFileName`: replace the last `*` of the character list with
`rand` (the characters before it are kept even when they contain `*`). -/
def replaceStarAux (rand : List Char) : List Char → List Char
  | [] => []
  | c :: rest =>
    if '*' ∈ rest then c :: replaceStarAux rand rest
    else if c = '*' then rand ++ rest
    else c :: replaceStarAux rand rest

/-- Modelled from the documented behaviour of Go `ioutil.TempFile`: the last
`*` of the pattern is replaced by a random string; a pattern without `*` gets
the random string appended at the end. -/
def tempFileName (pattern rand : String) : String :=
  if '*' ∈ pattern.data then ⟨replaceStarAux rand.data pattern.data⟩
  else pattern ++ rand

theorem replaceStarAux_spec (rand : List Char) (p s : List Char) (hs : '*' ∉ s) :
    replaceStarAux rand (p ++ '*' :: s) = p ++ (rand ++ s) := by
  induction p with
  | nil =>
    simp only [List.nil_append]
    unfold replaceStarAux
    rw [if_neg hs, if_pos rfl]
  | cons c p ih =>
    have hmem : '*' ∈ (p ++ '*' :: s) := List.mem_append.mpr (Or.inr (List.mem_cons_self _ _))
    simp only [List.cons_append]
    unfold replaceStarAux
    rw [if_pos hmem, ih]

theorem tempFileName_star_suffix (a rand : String) :
    tempFileName (a ++ "-*.yaml") rand = a ++ "-" ++ rand ++ ".yaml" := by
  have hy : '*' ∉ (".yaml" : String).data := by decide
  have hdash : ("-*.yaml" : String).data = '-' :: '*' :: (".yaml" : String).data := by decide
  have hmem : '*' ∈ (a ++ "-*.yaml").data := by
    rw [String.data_append]
    exact List.mem_append.mpr (Or.inr (by decide))
  unfold tempFileName
  rw [if_pos hmem]
  apply stringDataEq
  show replaceStarAux rand.data (a ++ "-*.yaml").data = _
  rw [String.data_append, hdash]
  have hassoc : a.data ++ '-' :: '*' :: (".yaml" : String).data =
      (a.data ++ ['-']) ++ '*' :: (".yaml" : String).data := by simp
  rw [hassoc, replaceStarAux_spec rand.data _ _ hy]
  have hd : ("-" : String).data = ['-'] := by decide
  simp [String.data_append, hd]

/-- C7: the synthesized temporary file name is exactly the base name (the
root directory's final path segment, or the fixed default `jx-pipeline` when
that segment is empty or a single character), a hyphen, the qualified job
name with path separators replaced by hyphens, a hyphen, the unique random
part, and the suffix `.yaml` — in particular it starts with the base-name
part and ends with `.yaml`. -/
theorem c7_tmp_file_name (rootBase name rand : String) :
    tempFileName (tmpFilePattern rootBase name) rand =
      tmpBaseName rootBase ++ "-" ++ name.replace "/" "-" ++ "-" ++ rand ++ ".yaml" := by
  unfold tmpFilePattern
  rw [tempFileName_star_suffix]

/-- One visit of Go `filepath.Walk`: the visited path, its base name, whether
it is a directory, and the error the walk hands to the callback for this
visit (`none` when the walk reached the entry cleanly). -/
structure WalkEntry where
  path : String
  name : String
  isDir : Bool
  errFlag : Option String

/-- The walk callback of the recursive branch of `Run` (lines 145-153): an
error handed in by the walk aborts it; everything that is not a directory
named `.lighthouse` is skipped; a `.lighthouse` directory is processed with
`ProcessDir`, whose error also aborts the walk.  The walk's visit sequence is
supplied as the list argument. -/
def walkProcess (fs : FS) : List WalkEntry → Except String (List Trigger)
  | [] => Except.ok []
  | v :: rest =>
    match v.errFlag with
    | some e => Except.error e
    | none =>
      if v.isDir = false ∨ v.name ≠ ".lighthouse" then walkProcess fs rest
      else
        match ProcessDir fs v.path with
        | Except.error e => Except.error e
        | Except.ok ts => (walkProcess fs rest).map (fun acc => ts ++ acc)

/-- `Run` (lines 136-165) after validation: collect triggers either by the
recursive walk or from the single `<root>/.lighthouse` directory, then hand
the collected list to `processTriggers`. -/
def runEffective (fs : FS)
    (pick : List String → String → String → String → Except String String)
    (recursive : Bool) (rootDir triggerName pipelineName : String)
    (visits : List WalkEntry) : Except String (Trigger × String × PipelineRun) :=
  match (if recursive then walkProcess fs visits
    else ProcessDir fs (joinPath rootDir ".lighthouse")) with
  | Except.error e => Except.error e
  | Except.ok triggers => processTriggers pick triggerName pipelineName triggers

theorem walkProcess_no_lighthouse (fs : FS) (visits : List WalkEntry)
    (h : ∀ v ∈ visits, v.errFlag = none ∧ (v.isDir = false ∨ v.name ≠ ".lighthouse")) :
    walkProcess fs visits = Except.ok [] := by
  induction visits with
  | nil => rfl
  | cons v rest ih =>
    obtain ⟨herr, hskip⟩ := h v (List.mem_cons_self _ _)
    have hrest := ih (fun w hw => h w (List.mem_cons_of_mem _ hw))
    unfold walkProcess
    rw [herr]
    rw [if_pos hskip]
    exact hrest

/-- C10: in recursive mode, a walk that finds no directory named
`.lighthouse` (and reports no walk error) yields an empty trigger list and
the run proceeds to the selection stage with that empty list, without any
directory-read error; in non-recursive mode, a failing directory read of
`<root>/.lighthouse` aborts the run with a wrapped error naming that
directory. -/
theorem c10_recursive_empty_vs_flat_error (fs : FS)
    (pick : List String → String → String → String → Except String String)
    (rootDir triggerName pipelineName : String) (visits : List WalkEntry) :
    ((∀ v ∈ visits, v.errFlag = none ∧ (v.isDir = false ∨ v.name ≠ ".lighthouse")) →
      walkProcess fs visits = Except.ok [] ∧
      runEffective fs pick true rootDir triggerName pipelineName visits =
        processTriggers pick triggerName pipelineName []) ∧
    (∀ e : String, fs.readDir (joinPath rootDir ".lighthouse") = Except.error e →
      runEffective fs pick false rootDir triggerName pipelineName visits =
        Except.error (wrapErr ("failed to read dir " ++ joinPath rootDir ".lighthouse") e)) := by
  constructor
  · intro h
    have hwalk := walkProcess_no_lighthouse fs visits h
    refine ⟨hwalk, ?_⟩
    unfold runEffective
    rw [if_pos rfl, hwalk]
  · intro e he
    unfold runEffective
    rw [if_neg (by simp)]
    unfold ProcessDir
    rw [he]

/-- Example filesystem whose directory read always fails. -/
def egFSMissing : FS :=
  { egFS with readDir := fun _ => Except.error "no such file or directory" }

/-- Example walk visits of a repository without a `.lighthouse` directory. -/
def egVisits : List WalkEntry :=
  [⟨"/repo", "repo", true, none⟩, ⟨"/repo/README.md", "README.md", false, none⟩]

theorem c10_recursive_empty_vs_flat_error_witness :
    runEffective egFS egPickEmpty true "/repo" "" "" egVisits =
        processTriggers egPickEmpty "" "" [] ∧
      runEffective egFSMissing egPickEmpty false "/repo" "" "" [] =
        Except.error
          "failed to read dir /repo/.lighthouse: no such file or directory" := by
  constructor
  · exact ((c10_recursive_empty_vs_flat_error egFS egPickEmpty "/repo" "" "" egVisits).1
      (by decide)).2
  · rw [(c10_recursive_empty_vs_flat_error egFSMissing egPickEmpty "/repo" "" "" []).2
      "no such file or directory" rfl]
    rfl
